import Mathlib

/-!
Verification development for the `henlo_linker` static linker
(`src/main.rs`).  The linker merges the code sections of relocatable
object modules, builds a global symbol-address table, patches the entry
function's final instruction to a halt, applies relocations by splicing
generated load-address code into the merged image, and prepends a
10-byte entry trampoline.

The embedding below mirrors the source function by function:
`load_addr_code` and `gen_entrypoint` are the two Rust helpers;
`scanSymbol`/`scanSymbols` embed the per-module symbol loop
(lines 123-157); `parseRels` embeds the relocation-record cursor loop
(lines 189-200); `processModule`/`mergeModules` embed the per-module
body of `main`'s file loop; `relocLoop` embeds the patch loop
(lines 215-229) and `patchPhase` the tail of `main` (lines 203-233).
Rust `usize` subtractions that can wrap are modelled explicitly with
`wrappingSub` (arithmetic modulo `2 ^ 64`); a `panic!`, a failed
`unwrap` or an out-of-bounds `Vec` index is the `LinkError.panic`
constructor, while a `println!`-then-return diagnostic is one of the
structured diagnostic constructors.
-/

namespace Henlo

/-- Opcode constant `CLEAR_R_AC` from the source. -/
def CLEAR_R_AC : Nat := 0b0110110110110000

/-- Opcode constant `SHIFT_R_AC` from the source. -/
def SHIFT_R_AC : Nat := 0b0011110100000000

/-- Opcode constant `JMP_R_AC` from the source. -/
def JMP_R_AC : Nat := 0b1011110000000000

/-- Opcode constant `ADDI_R_AC` from the source. -/
def ADDI_R_AC : Nat := 0b00011100

/-- Halt opcode byte `HLT` from the source. -/
def HLT : Nat := 0b11111111

/-- Reserved entry symbol name `ENTRY` from the source. -/
def ENTRY : String := "main"

/-- Trampoline length constant `ENTRYPOINT_LEN` from the source. -/
def ENTRYPOINT_LEN : Nat := 10

/-- Instruction width constant `INSTRUCTION_BYTES` from the source. -/
def INSTRUCTION_BYTES : Nat := 2

/-- Modulus of Rust `usize` arithmetic on the 64-bit target, `2 ^ 64`. -/
def USIZE : Nat := 18446744073709551616

/-- Rust `usize` wrapping subtraction, `(a - b) mod 2 ^ 64` for
`b ≤ USIZE`: the borrow case wraps to `a + (USIZE - b)`, the normal case
is plain subtraction reduced modulo `USIZE`. -/
def wrappingSub (a b : Nat) : Nat :=
  if a < b then a + (USIZE - b) else (a - b) % USIZE

/-- Errors of the linker.  `panic` stands for a Rust `panic!`, a failed
`unwrap`, a failed `assert!` or an out-of-bounds `Vec` index; all other
constructors stand for a `println!` diagnostic followed by a clean
return (`duplicateSymbol n` prints `Duplicate symbol: {n}`,
`missingSymbol n` prints `Missing symbol: {n}`, `missingEntry` prints
`Missing entry function: main`).  Either way the output file is never
written. -/
inductive LinkError where
  | duplicateSymbol : String → LinkError
  | missingSymbol : String → LinkError
  | missingEntry : LinkError
  | panic : String → LinkError
deriving DecidableEq

/-- A symbol as handed over by the object-reader collaborator:
`symbol.name()`, `symbol.section_kind().is_some()`, `symbol.address()`,
`symbol.size()`. -/
structure ObjSymbol where
  name : Option String
  hasSection : Bool
  address : Nat
  size : Nat
deriving DecidableEq

/-- The `SimpleSymbol` struct of the source. -/
structure SimpleSymbol where
  name : Option String
  symbol_index : Nat
  address : Nat
  size : Nat
deriving DecidableEq

/-- The `WriteSymbol` struct of the source. -/
structure WriteSymbol where
  symbol_index : Nat
  cs_offset : Nat
deriving DecidableEq

/-- One object module after ingestion: its symbol table, the bytes of
its `.cs` section and the raw bytes of its `.rels.cs` section. -/
structure Module where
  symbols : List ObjSymbol
  code : List Nat
  rels : List Nat
deriving DecidableEq

/-- Model of the `HashMap` `symbol_addresses`: entries are prepended,
and the source only ever inserts a key it has just looked up as absent,
so the first match is the only match. -/
def lookupName : String → List (String × Nat) → Option Nat
  | _, [] => none
  | n, (m, v) :: rest => if n = m then some v else lookupName n rest

/-- State of the per-module symbol loop: the accumulated
`simple_symbols`, the `symbol_addresses` table and the module-local
`main_last_instruction_offset`. -/
structure ScanState where
  simple_symbols : List SimpleSymbol
  symbol_addresses : List (String × Nat)
  mlio : Option Nat
deriving DecidableEq

/-- Accumulated linker state across the module loop of `main`. -/
structure LinkState where
  write_what_where : List WriteSymbol
  simple_symbols : List SimpleSymbol
  symbol_addresses : List (String × Nat)
  executable : List Nat
deriving DecidableEq

/-- Model of `Vec::splice(a..b, repl)`: replaces the range `a..b` by
`repl`, panicking when the range is invalid or past the end, exactly as
the Rust method does. -/
def spliceList (v : List Nat) (a b : Nat) (repl : List Nat) :
    Except LinkError (List Nat) :=
  if a ≤ b ∧ b ≤ v.length then .ok (v.take a ++ repl ++ v.drop b)
  else .error (.panic ("splice out of range"))

/-- The source's `load_addr_code`: panics when the address exceeds
`u16::MAX`, otherwise emits clear-accumulator, add-immediate of the high
byte, shift-left-by-8, add-immediate of the low byte — 2 bytes each. -/
def load_addr_code (addr : Nat) : Except LinkError (List Nat) :=
  if 65535 < addr then .error (.panic ("Address too big"))
  else
    .ok [(CLEAR_R_AC >>> 8) &&& 255, CLEAR_R_AC &&& 255,
         ADDI_R_AC, (addr >>> 8) &&& 255,
         (SHIFT_R_AC >>> 8) &&& 255, SHIFT_R_AC &&& 255,
         ADDI_R_AC, addr &&& 255]

/-- The source's `gen_entrypoint`: the load-address code followed by the
2-byte jump-via-accumulator opcode. -/
def gen_entrypoint (addr : Nat) : Except LinkError (List Nat) :=
  match load_addr_code addr with
  | .error e => .error e
  | .ok ac => .ok (ac ++ [(JMP_R_AC >>> 8) &&& 255, JMP_R_AC &&& 255])

/-- One iteration of the symbol loop (source lines 123-157): build the
`SimpleSymbol`, and for a named symbol with a section insert its
absolute address into the table (a pre-existing entry is the duplicate
diagnostic) and record the entry symbol's halt-patch offset
`exec_offset + address + size - 2` (a wrapping `usize` subtraction). -/
def scanSymbol (exec_offset : Nat) (sc : ScanState) (sym : ObjSymbol) :
    Except LinkError ScanState :=
  let ss : SimpleSymbol :=
    ⟨sym.name, sc.simple_symbols.length, sym.address, sym.size⟩
  let pushed := sc.simple_symbols ++ [ss]
  match sym.name with
  | none => .ok ⟨pushed, sc.symbol_addresses, sc.mlio⟩
  | some name =>
    if sym.hasSection then
      match lookupName name sc.symbol_addresses with
      | some _ => .error (.duplicateSymbol name)
      | none =>
        let addr := exec_offset + sym.address
        let mlio :=
          if name = ENTRY then some (wrappingSub (addr + sym.size) 2)
          else sc.mlio
        .ok ⟨pushed, (name, addr) :: sc.symbol_addresses, mlio⟩
    else .ok ⟨pushed, sc.symbol_addresses, sc.mlio⟩

/-- The whole symbol loop of one module. -/
def scanSymbols (exec_offset : Nat) :
    ScanState → List ObjSymbol → Except LinkError ScanState
  | sc, [] => .ok sc
  | sc, sym :: rest =>
    match scanSymbol exec_offset sc sym with
    | .error e => .error e
    | .ok sc₂ => scanSymbols exec_offset sc₂ rest

/-- The relocation-record cursor loop (source lines 189-200): each
record is 8 bytes — a little-endian `u32` patch offset, one ignored type
byte, one symbol-ordinal byte, two padding bytes.  A trailing partial
record makes a `read_*` call fail and its `unwrap` panic. -/
def parseRels (exec_offset symbol_offset : Nat) :
    List Nat → Except LinkError (List WriteSymbol)
  | [] => .ok []
  | b0 :: b1 :: b2 :: b3 :: _typ :: sid :: _p0 :: _p1 :: rest =>
    let cs_offset := b0 + 256 * b1 + 65536 * b2 + 16777216 * b3
    (match parseRels exec_offset symbol_offset rest with
     | .error e => .error e
     | .ok ws => .ok (⟨symbol_offset + sid, exec_offset + cs_offset⟩ :: ws))
  | _ => .error (.panic ("relocation read out of bounds"))

/-- The body of `main`'s per-module loop: capture the symbol and code
base offsets, run the symbol loop, append the module's code, apply the
halt patch when this module defined the entry symbol, and parse the
module's relocation records. -/
def processModule (st : LinkState) (m : Module) : Except LinkError LinkState :=
  let symbol_offset := st.simple_symbols.length
  let exec_offset := st.executable.length
  match scanSymbols exec_offset
      ⟨st.simple_symbols, st.symbol_addresses, none⟩ m.symbols with
  | .error e => .error e
  | .ok sc =>
    let merged := st.executable ++ m.code
    match
      (match sc.mlio with
       | some offset => spliceList merged offset (offset + 2) [HLT, HLT]
       | none => .ok merged) with
    | .error e => .error e
    | .ok executable =>
      match parseRels exec_offset symbol_offset m.rels with
      | .error e => .error e
      | .ok ws =>
        .ok ⟨st.write_what_where ++ ws, sc.simple_symbols,
             sc.symbol_addresses, executable⟩

/-- The module loop of `main`, over a list of already-ingested modules. -/
def mergeModules : LinkState → List Module → Except LinkError LinkState
  | st, [] => .ok st
  | st, m :: rest =>
    match processModule st m with
    | .error e => .error e
    | .ok st₂ => mergeModules st₂ rest

/-- The empty initial state of `main`. -/
def initState : LinkState := ⟨[], [], [], []⟩

/-- The merge phase: the whole module loop from the empty state. -/
def mergePhase (mods : List Module) : Except LinkError LinkState :=
  mergeModules initState mods

/-- Start of one patch-loop iteration (source lines 215-218): index
`simple_symbols` with the record's global symbol index (an out-of-bounds
index panics like `Vec` indexing) and unwrap the symbol's name (a
nameless symbol panics like `Option::unwrap`). -/
def resolveName (simple_symbols : List SimpleSymbol)
    (w : WriteSymbol) : Except LinkError String :=
  match simple_symbols[w.symbol_index]? with
  | none => .error (.panic ("index out of bounds"))
  | some s =>
    match s.name with
    | none => .error (.panic ("unwrap None"))
    | some name => .ok name

/-- Look the resolved name up in the global address table; absence is
the missing-symbol diagnostic (source lines 219-225). -/
def resolveAddress (tbl : List (String × Nat)) (name : String) :
    Except LinkError Nat :=
  match lookupName name tbl with
  | none => .error (.missingSymbol name)
  | some address => .ok address

/-- The rest of one patch-loop iteration: convert the resolved address
to an instruction unit with the trampoline-length correction and a
`wrapping_sub(1)`, generate the load-address code and splice it over the
patch range (source lines 220-228). -/
def relocStep (simple_symbols : List SimpleSymbol)
    (tbl : List (String × Nat)) (ep_len : Nat) (executable : List Nat)
    (w : WriteSymbol) : Except LinkError (List Nat) :=
  match resolveName simple_symbols w with
  | .error e => .error e
  | .ok name =>
    match resolveAddress tbl name with
    | .error e => .error e
    | .ok address =>
      match load_addr_code
          (wrappingSub ((address + ep_len) / INSTRUCTION_BYTES) 1) with
      | .error e => .error e
      | .ok insert_code =>
        spliceList executable w.cs_offset
          (w.cs_offset + insert_code.length) insert_code

/-- The whole patch loop: `relocStep` for each collected record in
order. -/
def relocLoop (simple_symbols : List SimpleSymbol)
    (tbl : List (String × Nat)) (ep_len : Nat) :
    List Nat → List WriteSymbol → Except LinkError (List Nat)
  | executable, [] => .ok executable
  | executable, w :: rest =>
    match relocStep simple_symbols tbl ep_len executable w with
    | .error e => .error e
    | .ok executable₂ =>
      relocLoop simple_symbols tbl ep_len executable₂ rest

/-- The tail of `main` (lines 203-233): resolve the entry symbol,
generate the trampoline, check its length with `assert!`, run the
relocation patch loop and emit trampoline ++ patched image. -/
def patchPhase (st : LinkState) : Except LinkError (List Nat) :=
  match lookupName ENTRY st.symbol_addresses with
  | none => .error .missingEntry
  | some address =>
    let entry_address :=
      wrappingSub ((address + ENTRYPOINT_LEN) / INSTRUCTION_BYTES) 1
    match gen_entrypoint entry_address with
    | .error e => .error e
    | .ok entrypoint_jmp_code =>
      if entrypoint_jmp_code.length = ENTRYPOINT_LEN then
        match relocLoop st.simple_symbols st.symbol_addresses
            entrypoint_jmp_code.length st.executable
            st.write_what_where with
        | .error e => .error e
        | .ok executable => .ok (entrypoint_jmp_code ++ executable)
      else .error (.panic ("assertion failed"))

/-- The whole linker on ingested modules: merge phase then patch phase;
`.ok` is exactly the case in which the output file gets written. -/
def link (mods : List Module) : Except LinkError (List Nat) :=
  match mergePhase mods with
  | .error e => .error e
  | .ok st => patchPhase st

/-- Whether a linker run succeeded (wrote the output file). -/
def exceptIsOk : Except LinkError (List Nat) → Bool
  | .ok _ => true
  | .error _ => false

/-- Whether a linker run aborted with the duplicate-definition
diagnostic. -/
def isDuplicateError : Except LinkError (List Nat) → Bool
  | .error (.duplicateSymbol _) => true
  | _ => false

/-! ### Arithmetic and splice lemmas -/

theorem wrappingSub_eq_sub {a b : Nat} (h1 : 1 ≤ b) (h2 : b ≤ a)
    (h3 : a ≤ USIZE) : wrappingSub a b = a - b := by
  have hu : (1 : Nat) ≤ USIZE := by rw [USIZE]; omega
  rw [wrappingSub, if_neg (by omega), Nat.mod_eq_of_lt (by omega)]

theorem load_addr_code_ok {addr : Nat} {l : List Nat}
    (h : load_addr_code addr = .ok l) :
    addr ≤ 65535 ∧
      l = [(CLEAR_R_AC >>> 8) &&& 255, CLEAR_R_AC &&& 255,
           ADDI_R_AC, (addr >>> 8) &&& 255,
           (SHIFT_R_AC >>> 8) &&& 255, SHIFT_R_AC &&& 255,
           ADDI_R_AC, addr &&& 255] := by
  rw [load_addr_code] at h
  split at h
  · cases h
  · rename_i hlt
    cases h
    exact ⟨by omega, rfl⟩

theorem load_addr_code_length {addr : Nat} {l : List Nat}
    (h : load_addr_code addr = .ok l) : l.length = 8 := by
  obtain ⟨-, rfl⟩ := load_addr_code_ok h
  rfl

theorem load_addr_code_of_le {addr : Nat} (h : addr ≤ 65535) :
    load_addr_code addr =
      .ok [(CLEAR_R_AC >>> 8) &&& 255, CLEAR_R_AC &&& 255,
           ADDI_R_AC, (addr >>> 8) &&& 255,
           (SHIFT_R_AC >>> 8) &&& 255, SHIFT_R_AC &&& 255,
           ADDI_R_AC, addr &&& 255] := by
  rw [load_addr_code, if_neg (by omega)]

theorem gen_entrypoint_ok {addr : Nat} {l : List Nat}
    (h : gen_entrypoint addr = .ok l) :
    ∃ ac, load_addr_code addr = .ok ac ∧
      l = ac ++ [(JMP_R_AC >>> 8) &&& 255, JMP_R_AC &&& 255] ∧
      l.length = ENTRYPOINT_LEN := by
  rw [gen_entrypoint] at h
  cases hl : load_addr_code addr with
  | error e => rw [hl] at h; cases h
  | ok ac =>
    rw [hl] at h
    cases h
    refine ⟨ac, rfl, rfl, ?_⟩
    have h8 := load_addr_code_length hl
    simp [List.length_append, h8, ENTRYPOINT_LEN]

theorem spliceList_ok {v repl v₂ : List Nat} {a b : Nat}
    (h : spliceList v a b repl = .ok v₂) :
    a ≤ b ∧ b ≤ v.length ∧ v₂ = v.take a ++ repl ++ v.drop b := by
  rw [spliceList] at h
  split at h
  · rename_i hc
    cases h
    exact ⟨hc.1, hc.2, rfl⟩
  · cases h

theorem spliceList_length {v repl v₂ : List Nat} {a b : Nat}
    (h : spliceList v a b repl = .ok v₂) (hr : repl.length = b - a) :
    v₂.length = v.length := by
  obtain ⟨h1, h2, rfl⟩ := spliceList_ok h
  simp only [List.length_append, List.length_take, List.length_drop]
  omega

theorem spliceList_get_inside {v repl v₂ : List Nat} {a b j : Nat}
    (h : spliceList v a b repl = .ok v₂) (hj : j < repl.length) :
    v₂[a + j]? = repl[j]? := by
  obtain ⟨h1, h2, rfl⟩ := spliceList_ok h
  have hta : (v.take a).length = a := by
    rw [List.length_take]; omega
  rw [List.append_assoc, List.getElem?_append_right (by omega), hta]
  have hj2 : a + j - a = j := by omega
  rw [hj2, List.getElem?_append_left hj]

theorem spliceList_get_outside {v repl v₂ : List Nat} {a b i : Nat}
    (h : spliceList v a b repl = .ok v₂) (hr : repl.length = b - a)
    (hi : i < a ∨ b ≤ i) : v₂[i]? = v[i]? := by
  obtain ⟨h1, h2, rfl⟩ := spliceList_ok h
  have hta : (v.take a).length = a := by
    rw [List.length_take]; omega
  rcases hi with hi | hi
  · rw [List.append_assoc, List.getElem?_append_left (by omega),
      List.getElem?_take]
    simp [hi]
  · rw [List.append_assoc, List.getElem?_append_right (by omega), hta,
      List.getElem?_append_right (by omega), List.getElem?_drop]
    have hidx : b + (i - a - repl.length) = i := by omega
    rw [hidx]

/-! ### Lookup-table lemmas -/

theorem lookupName_cons_ne {n m : String} {v : Nat}
    {tbl : List (String × Nat)} (h : n ≠ m) :
    lookupName n ((m, v) :: tbl) = lookupName n tbl := by
  simp [lookupName, h]

theorem lookupName_cons_self {m : String} {v : Nat}
    {tbl : List (String × Nat)} :
    lookupName m ((m, v) :: tbl) = some v := by
  simp [lookupName]

/-! ### Symbol-scan lemmas -/

theorem scanSymbol_tbl_mono {off : Nat} {sc sc₂ : ScanState}
    {sym : ObjSymbol} {n : String} {v : Nat}
    (h : scanSymbol off sc sym = .ok sc₂)
    (hl : lookupName n sc.symbol_addresses = some v) :
    lookupName n sc₂.symbol_addresses = some v := by
  obtain ⟨nm, hsec, ad, sz⟩ := sym
  cases nm with
  | none =>
    simp only [scanSymbol] at h
    cases h
    exact hl
  | some m =>
    cases hsec with
    | false =>
      simp only [scanSymbol, Bool.false_eq_true, if_false] at h
      cases h
      exact hl
    | true =>
      simp only [scanSymbol, if_true] at h
      cases hlk : lookupName m sc.symbol_addresses with
      | some w => rw [hlk] at h; cases h
      | none =>
        rw [hlk] at h
        cases h
        by_cases hnm : n = m
        · subst hnm
          rw [hl] at hlk
          cases hlk
        · rw [lookupName_cons_ne hnm]
          exact hl

theorem scanSymbol_error {off : Nat} {sc : ScanState} {sym : ObjSymbol}
    {e : LinkError} (h : scanSymbol off sc sym = .error e) :
    ∃ m, e = .duplicateSymbol m := by
  obtain ⟨nm, hsec, ad, sz⟩ := sym
  cases nm with
  | none => simp only [scanSymbol] at h; cases h
  | some m =>
    cases hsec with
    | false =>
      simp only [scanSymbol, Bool.false_eq_true, if_false] at h
      cases h
    | true =>
      simp only [scanSymbol, if_true] at h
      cases hlk : lookupName m sc.symbol_addresses with
      | some w =>
        rw [hlk] at h
        cases h
        exact ⟨m, rfl⟩
      | none => rw [hlk] at h; cases h

theorem scanSymbol_dup {off : Nat} {sc : ScanState} {sym : ObjSymbol}
    {n : String} {v : Nat} (hn : sym.name = some n)
    (hsec : sym.hasSection = true)
    (hl : lookupName n sc.symbol_addresses = some v) :
    scanSymbol off sc sym = .error (.duplicateSymbol n) := by
  obtain ⟨nm, hs, ad, sz⟩ := sym
  cases hn
  cases hsec
  simp only [scanSymbol, if_true]
  rw [hl]

theorem scanSymbol_insert {off : Nat} {sc : ScanState} {sym : ObjSymbol}
    {n : String} (hn : sym.name = some n) (hsec : sym.hasSection = true)
    (hl : lookupName n sc.symbol_addresses = none) :
    scanSymbol off sc sym =
      .ok ⟨sc.simple_symbols ++
            [⟨some n, sc.simple_symbols.length, sym.address, sym.size⟩],
          (n, off + sym.address) :: sc.symbol_addresses,
          if n = ENTRY then
            some (wrappingSub (off + sym.address + sym.size) 2)
          else sc.mlio⟩ := by
  obtain ⟨nm, hs, ad, sz⟩ := sym
  cases hn
  cases hsec
  simp only [scanSymbol, if_true]
  rw [hl]

theorem scanSymbol_mlio_of_entry_some {off : Nat} {sc sc₂ : ScanState}
    {sym : ObjSymbol} {v : Nat}
    (hl : lookupName ENTRY sc.symbol_addresses = some v)
    (h : scanSymbol off sc sym = .ok sc₂) : sc₂.mlio = sc.mlio := by
  obtain ⟨nm, hsec, ad, sz⟩ := sym
  cases nm with
  | none =>
    simp only [scanSymbol] at h
    cases h
    rfl
  | some m =>
    cases hsec with
    | false =>
      simp only [scanSymbol, Bool.false_eq_true, if_false] at h
      cases h
      rfl
    | true =>
      simp only [scanSymbol, if_true] at h
      cases hlk : lookupName m sc.symbol_addresses with
      | some w => rw [hlk] at h; cases h
      | none =>
        rw [hlk] at h
        cases h
        have hm : m ≠ ENTRY := by
          intro hEq
          subst hEq
          rw [hl] at hlk
          cases hlk
        simp [hm]

theorem scanSymbol_entry_none_preserved {off : Nat} {sc sc₂ : ScanState}
    {sym : ObjSymbol}
    (hl : lookupName ENTRY sc.symbol_addresses = none)
    (h : scanSymbol off sc sym = .ok sc₂)
    (hnot : ¬(sym.name = some ENTRY ∧ sym.hasSection = true)) :
    lookupName ENTRY sc₂.symbol_addresses = none ∧ sc₂.mlio = sc.mlio := by
  obtain ⟨nm, hsec, ad, sz⟩ := sym
  cases nm with
  | none =>
    simp only [scanSymbol] at h
    cases h
    exact ⟨hl, rfl⟩
  | some m =>
    cases hsec with
    | false =>
      simp only [scanSymbol, Bool.false_eq_true, if_false] at h
      cases h
      exact ⟨hl, rfl⟩
    | true =>
      simp only [scanSymbol, if_true] at h
      cases hlk : lookupName m sc.symbol_addresses with
      | some w => rw [hlk] at h; cases h
      | none =>
        rw [hlk] at h
        cases h
        have hm : m ≠ ENTRY := by
          intro hEq
          exact hnot ⟨by rw [hEq], rfl⟩
        constructor
        · rw [lookupName_cons_ne (fun hEq => hm hEq.symm)]
          exact hl
        · simp [hm]

theorem scanSymbols_tbl_mono {off : Nat} {syms : List ObjSymbol} :
    ∀ {sc sc₂ : ScanState} {n : String} {v : Nat},
    scanSymbols off sc syms = .ok sc₂ →
    lookupName n sc.symbol_addresses = some v →
    lookupName n sc₂.symbol_addresses = some v := by
  induction syms with
  | nil =>
    intro sc sc₂ n v h hl
    simp only [scanSymbols] at h
    cases h
    exact hl
  | cons sym rest ih =>
    intro sc sc₂ n v h hl
    simp only [scanSymbols] at h
    cases hstep : scanSymbol off sc sym with
    | error e => rw [hstep] at h; cases h
    | ok sc₁ =>
      rw [hstep] at h
      exact ih h (scanSymbol_tbl_mono hstep hl)

theorem scanSymbols_error_dup {off : Nat} {syms : List ObjSymbol} :
    ∀ {sc : ScanState} {e : LinkError},
    scanSymbols off sc syms = .error e → ∃ m, e = .duplicateSymbol m := by
  induction syms with
  | nil =>
    intro sc e h
    simp only [scanSymbols] at h
    cases h
  | cons sym rest ih =>
    intro sc e h
    simp only [scanSymbols] at h
    cases hstep : scanSymbol off sc sym with
    | error e₂ =>
      rw [hstep] at h
      cases h
      exact scanSymbol_error hstep
    | ok sc₁ =>
      rw [hstep] at h
      exact ih h

theorem scanSymbols_dup_of_mem {off : Nat} {syms : List ObjSymbol} :
    ∀ {sc : ScanState} {sym : ObjSymbol} {n : String} {v : Nat},
    lookupName n sc.symbol_addresses = some v →
    sym ∈ syms → sym.name = some n → sym.hasSection = true →
    ∃ e, scanSymbols off sc syms = .error e := by
  induction syms with
  | nil =>
    intro sc sym n v hl hmem hn hsec
    cases hmem
  | cons hd rest ih =>
    intro sc sym n v hl hmem hn hsec
    simp only [scanSymbols]
    rcases List.mem_cons.mp hmem with hEq | hmem₂
    · subst hEq
      rw [scanSymbol_dup hn hsec hl]
      exact ⟨_, rfl⟩
    · cases hstep : scanSymbol off sc hd with
      | error e => exact ⟨e, rfl⟩
      | ok sc₁ => exact ih (scanSymbol_tbl_mono hstep hl) hmem₂ hn hsec

theorem scanSymbols_mem_lookup {off : Nat} {syms : List ObjSymbol} :
    ∀ {sc sc₂ : ScanState} {sym : ObjSymbol} {n : String},
    scanSymbols off sc syms = .ok sc₂ →
    sym ∈ syms → sym.name = some n → sym.hasSection = true →
    lookupName n sc₂.symbol_addresses = some (off + sym.address) := by
  induction syms with
  | nil =>
    intro sc sc₂ sym n h hmem hn hsec
    cases hmem
  | cons hd rest ih =>
    intro sc sc₂ sym n h hmem hn hsec
    simp only [scanSymbols] at h
    rcases List.mem_cons.mp hmem with hEq | hmem₂
    · subst hEq
      cases hlk : lookupName n sc.symbol_addresses with
      | some w =>
        rw [scanSymbol_dup hn hsec hlk] at h
        cases h
      | none =>
        rw [scanSymbol_insert hn hsec hlk] at h
        exact scanSymbols_tbl_mono h lookupName_cons_self
    · cases hstep : scanSymbol off sc hd with
      | error e => rw [hstep] at h; cases h
      | ok sc₁ =>
        rw [hstep] at h
        exact ih h hmem₂ hn hsec

theorem scanSymbols_mlio_frozen {off : Nat} {syms : List ObjSymbol} :
    ∀ {sc sc₂ : ScanState} {v : Nat},
    lookupName ENTRY sc.symbol_addresses = some v →
    scanSymbols off sc syms = .ok sc₂ → sc₂.mlio = sc.mlio := by
  induction syms with
  | nil =>
    intro sc sc₂ v hl h
    simp only [scanSymbols] at h
    cases h
    rfl
  | cons sym rest ih =>
    intro sc sc₂ v hl h
    simp only [scanSymbols] at h
    cases hstep : scanSymbol off sc sym with
    | error e => rw [hstep] at h; cases h
    | ok sc₁ =>
      rw [hstep] at h
      rw [ih (scanSymbol_tbl_mono hstep hl) h]
      exact scanSymbol_mlio_of_entry_some hl hstep

theorem scanSymbols_entry_mlio {off : Nat} {syms : List ObjSymbol} :
    ∀ {sc sc₂ : ScanState} {sym : ObjSymbol},
    lookupName ENTRY sc.symbol_addresses = none → sc.mlio = none →
    scanSymbols off sc syms = .ok sc₂ →
    sym ∈ syms → sym.name = some ENTRY → sym.hasSection = true →
    sc₂.mlio = some (wrappingSub (off + sym.address + sym.size) 2) := by
  induction syms with
  | nil =>
    intro sc sc₂ sym hl hm h hmem hn hsec
    cases hmem
  | cons hd rest ih =>
    intro sc sc₂ sym hl hm h hmem hn hsec
    simp only [scanSymbols] at h
    rcases List.mem_cons.mp hmem with hEq | hmem₂
    · subst hEq
      rw [scanSymbol_insert hn hsec hl] at h
      rw [@scanSymbols_mlio_frozen off rest _ _ (off + sym.address)
        lookupName_cons_self h]
      simp
    · by_cases hhd : hd.name = some ENTRY ∧ hd.hasSection = true
      · cases hstep : scanSymbol off sc hd with
        | error e => rw [hstep] at h; cases h
        | ok sc₁ =>
          rw [hstep] at h
          have h₂ : scanSymbols off sc₁ rest = Except.ok sc₂ := h
          have hins := @scanSymbol_insert off sc hd ENTRY hhd.1 hhd.2 hl
          rw [hstep] at hins
          have hval := Except.ok.inj hins
          have hlk₁ : lookupName ENTRY sc₁.symbol_addresses
              = some (off + hd.address) := by
            rw [hval]
            exact lookupName_cons_self
          obtain ⟨e, he⟩ :=
            @scanSymbols_dup_of_mem off rest sc₁ sym ENTRY
              (off + hd.address) hlk₁ hmem₂ hn hsec
          rw [he] at h₂
          cases h₂
      · cases hstep : scanSymbol off sc hd with
        | error e => rw [hstep] at h; cases h
        | ok sc₁ =>
          rw [hstep] at h
          obtain ⟨hl₁, hm₁⟩ := scanSymbol_entry_none_preserved hl hstep hhd
          exact ih hl₁ (hm₁.trans hm) h hmem₂ hn hsec

theorem scanSymbols_dup_pair {off : Nat} {l₁ : List ObjSymbol} :
    ∀ {sc : ScanState} {sym₁ sym₂ : ObjSymbol} {l₂ l₃ : List ObjSymbol}
      {n : String},
    sym₁.name = some n → sym₁.hasSection = true →
    sym₂.name = some n → sym₂.hasSection = true →
    ∃ e, scanSymbols off sc (l₁ ++ sym₁ :: l₂ ++ sym₂ :: l₃)
      = .error e := by
  induction l₁ with
  | nil =>
    intro sc sym₁ sym₂ l₂ l₃ n hn₁ hs₁ hn₂ hs₂
    cases hlk : lookupName n sc.symbol_addresses with
    | some v =>
      refine ⟨.duplicateSymbol n, ?_⟩
      simp only [List.nil_append, scanSymbols, scanSymbol_dup hn₁ hs₁ hlk]
    | none =>
      cases hstep : scanSymbol off sc sym₁ with
      | error e =>
        refine ⟨e, ?_⟩
        simp only [List.nil_append, scanSymbols, hstep]
      | ok sc₁ =>
        have hins := @scanSymbol_insert off sc sym₁ n hn₁ hs₁ hlk
        rw [hstep] at hins
        have hval := Except.ok.inj hins
        have hlk₁ : lookupName n sc₁.symbol_addresses
            = some (off + sym₁.address) := by
          rw [hval]
          exact lookupName_cons_self
        have hmem₂ : sym₂ ∈ l₂ ++ sym₂ :: l₃ := by simp
        obtain ⟨e, he⟩ := @scanSymbols_dup_of_mem off (l₂ ++ sym₂ :: l₃)
          sc₁ sym₂ n (off + sym₁.address) hlk₁ hmem₂ hn₂ hs₂
        refine ⟨e, ?_⟩
        simp only [List.nil_append, scanSymbols, hstep]
        exact he
  | cons hd tl ih =>
    intro sc sym₁ sym₂ l₂ l₃ n hn₁ hs₁ hn₂ hs₂
    cases hstep : scanSymbol off sc hd with
    | error e =>
      refine ⟨e, ?_⟩
      simp only [List.cons_append, scanSymbols, hstep]
    | ok sc₁ =>
      obtain ⟨e, he⟩ := @ih sc₁ sym₁ sym₂ l₂ l₃ n hn₁ hs₁ hn₂ hs₂
      refine ⟨e, ?_⟩
      simp only [List.cons_append, scanSymbols, hstep]
      exact he

/-! ### Module-processing lemmas -/

theorem processModule_ok {st st₂ : LinkState} {m : Module}
    (h : processModule st m = .ok st₂) :
    ∃ sc ex ws,
      scanSymbols st.executable.length
        ⟨st.simple_symbols, st.symbol_addresses, none⟩ m.symbols = .ok sc ∧
      (match sc.mlio with
       | some offset =>
           spliceList (st.executable ++ m.code) offset (offset + 2)
             [HLT, HLT]
       | none => .ok (st.executable ++ m.code)) = .ok ex ∧
      parseRels st.executable.length st.simple_symbols.length m.rels
        = .ok ws ∧
      st₂ = ⟨st.write_what_where ++ ws, sc.simple_symbols,
             sc.symbol_addresses, ex⟩ := by
  simp only [processModule] at h
  split at h
  · cases h
  · rename_i sc hscan
    split at h
    · cases h
    · rename_i ex hsp
      split at h
      · cases h
      · rename_i ws hrels
        cases h
        exact ⟨sc, ex, ws, hscan, hsp, hrels, rfl⟩

theorem processModule_length {st st₂ : LinkState} {m : Module}
    (h : processModule st m = .ok st₂) :
    st₂.executable.length = st.executable.length + m.code.length := by
  obtain ⟨sc, ex, ws, hscan, hsp, hrels, rfl⟩ := processModule_ok h
  cases hm : sc.mlio with
  | none =>
    rw [hm] at hsp
    cases hsp
    simp [List.length_append]
  | some off =>
    rw [hm] at hsp
    have hlen := spliceList_length hsp (by simp)
    simpa [List.length_append] using hlen

theorem processModule_tbl_mono {st st₂ : LinkState} {m : Module}
    {n : String} {v : Nat} (h : processModule st m = .ok st₂)
    (hl : lookupName n st.symbol_addresses = some v) :
    lookupName n st₂.symbol_addresses = some v := by
  obtain ⟨sc, ex, ws, hscan, hsp, hrels, rfl⟩ := processModule_ok h
  exact scanSymbols_tbl_mono hscan hl

theorem processModule_preserve {st st₂ : LinkState} {m : Module} {v : Nat}
    (hl : lookupName ENTRY st.symbol_addresses = some v)
    (h : processModule st m = .ok st₂) :
    lookupName ENTRY st₂.symbol_addresses = some v ∧
      ∀ i, i < st.executable.length →
        st₂.executable[i]? = st.executable[i]? := by
  obtain ⟨sc, ex, ws, hscan, hsp, hrels, rfl⟩ := processModule_ok h
  have htbl := scanSymbols_tbl_mono hscan hl
  have hml : sc.mlio = none := scanSymbols_mlio_frozen hl hscan
  rw [hml] at hsp
  cases hsp
  exact ⟨htbl, fun i hi => List.getElem?_append_left hi⟩

theorem mergeModules_ok_append {mods₁ mods₂ : List Module} :
    ∀ {st st₂ : LinkState},
    mergeModules st (mods₁ ++ mods₂) = .ok st₂ →
    ∃ st₁, mergeModules st mods₁ = .ok st₁ ∧
      mergeModules st₁ mods₂ = .ok st₂ := by
  induction mods₁ with
  | nil => exact fun h => ⟨_, rfl, h⟩
  | cons m rest ih =>
    intro st st₂ h
    simp only [List.cons_append, mergeModules] at h
    cases hstep : processModule st m with
    | error e => rw [hstep] at h; cases h
    | ok st₁ =>
      rw [hstep] at h
      obtain ⟨stm, h1, h2⟩ := ih h
      refine ⟨stm, ?_, h2⟩
      simp only [mergeModules]
      rw [hstep]
      exact h1

theorem mergeModules_length {mods : List Module} :
    ∀ {st st₂ : LinkState}, mergeModules st mods = .ok st₂ →
    st₂.executable.length =
      st.executable.length + (mods.map fun m => m.code.length).sum := by
  induction mods with
  | nil =>
    intro st st₂ h
    cases h
    simp
  | cons m rest ih =>
    intro st st₂ h
    simp only [mergeModules] at h
    cases hstep : processModule st m with
    | error e => rw [hstep] at h; cases h
    | ok st₁ =>
      rw [hstep] at h
      have h1 := processModule_length hstep
      have h2 := ih h
      rw [h2, h1]
      simp [List.sum_cons]
      omega

theorem mergeModules_tbl_mono {mods : List Module} :
    ∀ {st st₂ : LinkState} {n : String} {v : Nat},
    mergeModules st mods = .ok st₂ →
    lookupName n st.symbol_addresses = some v →
    lookupName n st₂.symbol_addresses = some v := by
  induction mods with
  | nil =>
    intro st st₂ n v h hl
    cases h
    exact hl
  | cons m rest ih =>
    intro st st₂ n v h hl
    simp only [mergeModules] at h
    cases hstep : processModule st m with
    | error e => rw [hstep] at h; cases h
    | ok st₁ =>
      rw [hstep] at h
      exact ih h (processModule_tbl_mono hstep hl)

theorem mergeModules_preserve {mods : List Module} :
    ∀ {st st₂ : LinkState} {v : Nat},
    lookupName ENTRY st.symbol_addresses = some v →
    mergeModules st mods = .ok st₂ →
    lookupName ENTRY st₂.symbol_addresses = some v ∧
      ∀ i, i < st.executable.length →
        st₂.executable[i]? = st.executable[i]? := by
  induction mods with
  | nil =>
    intro st st₂ v hl h
    cases h
    exact ⟨hl, fun i _ => rfl⟩
  | cons m rest ih =>
    intro st st₂ v hl h
    simp only [mergeModules] at h
    cases hstep : processModule st m with
    | error e => rw [hstep] at h; cases h
    | ok st₁ =>
      rw [hstep] at h
      obtain ⟨htbl₁, hex₁⟩ := processModule_preserve hl hstep
      obtain ⟨htbl₂, hex₂⟩ := ih htbl₁ h
      refine ⟨htbl₂, fun i hi => ?_⟩
      have hlen := processModule_length hstep
      rw [hex₂ i (by omega), hex₁ i hi]

/-! ### Relocation-loop lemmas -/

theorem resolveName_ok {ss : List SimpleSymbol} {w : WriteSymbol}
    {name : String} (h : resolveName ss w = .ok name) :
    ∃ s, ss[w.symbol_index]? = some s ∧ s.name = some name := by
  simp only [resolveName] at h
  split at h
  · cases h
  · rename_i s hs
    split at h
    · cases h
    · rename_i n hn
      cases h
      exact ⟨s, hs, hn⟩

theorem resolveName_of {ss : List SimpleSymbol} {w : WriteSymbol}
    {s : SimpleSymbol} {name : String}
    (hs : ss[w.symbol_index]? = some s) (hn : s.name = some name) :
    resolveName ss w = .ok name := by
  simp only [resolveName, hs, hn]

theorem resolveName_oob {ss : List SimpleSymbol} {w : WriteSymbol}
    (hs : ss[w.symbol_index]? = none) :
    resolveName ss w = .error (.panic ("index out of bounds")) := by
  simp only [resolveName, hs]

theorem resolveName_unnamed {ss : List SimpleSymbol} {w : WriteSymbol}
    {s : SimpleSymbol} (hs : ss[w.symbol_index]? = some s)
    (hn : s.name = none) :
    resolveName ss w = .error (.panic ("unwrap None")) := by
  simp only [resolveName, hs, hn]

theorem resolveAddress_ok {tbl : List (String × Nat)} {name : String}
    {address : Nat} (h : resolveAddress tbl name = .ok address) :
    lookupName name tbl = some address := by
  simp only [resolveAddress] at h
  split at h
  · cases h
  · rename_i a hlk
    cases h
    exact hlk

theorem resolveAddress_missing {tbl : List (String × Nat)}
    {name : String} (hv : lookupName name tbl = none) :
    resolveAddress tbl name = .error (.missingSymbol name) := by
  simp only [resolveAddress, hv]

theorem relocStep_ok {ss : List SimpleSymbol}
    {tbl : List (String × Nat)} {ep : Nat} {ex ex₁ : List Nat}
    {w : WriteSymbol} (h : relocStep ss tbl ep ex w = .ok ex₁) :
    ∃ s name address insert_code,
      ss[w.symbol_index]? = some s ∧ s.name = some name ∧
      lookupName name tbl = some address ∧
      load_addr_code (wrappingSub ((address + ep) / INSTRUCTION_BYTES) 1)
        = .ok insert_code ∧
      spliceList ex w.cs_offset (w.cs_offset + insert_code.length)
        insert_code = .ok ex₁ := by
  simp only [relocStep] at h
  split at h
  · cases h
  · rename_i name hname
    split at h
    · cases h
    · rename_i address haddr
      split at h
      · cases h
      · rename_i insert_code hload
        obtain ⟨s, hs, hn⟩ := resolveName_ok hname
        exact ⟨s, name, address, insert_code, hs, hn,
          resolveAddress_ok haddr, hload, h⟩

theorem relocLoop_cons_ok {ss : List SimpleSymbol}
    {tbl : List (String × Nat)} {ep : Nat} {ex ex₂ : List Nat}
    {w : WriteSymbol} {rest : List WriteSymbol}
    (h : relocLoop ss tbl ep ex (w :: rest) = .ok ex₂) :
    ∃ s name address insert_code ex₁,
      ss[w.symbol_index]? = some s ∧ s.name = some name ∧
      lookupName name tbl = some address ∧
      load_addr_code (wrappingSub ((address + ep) / INSTRUCTION_BYTES) 1)
        = .ok insert_code ∧
      spliceList ex w.cs_offset (w.cs_offset + insert_code.length)
        insert_code = .ok ex₁ ∧
      relocLoop ss tbl ep ex₁ rest = .ok ex₂ := by
  simp only [relocLoop] at h
  split at h
  · cases h
  · rename_i ex₁ hstep
    obtain ⟨s, name, address, ic, hs, hn, hlk, hload, hsp⟩ :=
      relocStep_ok hstep
    exact ⟨s, name, address, ic, ex₁, hs, hn, hlk, hload, hsp, h⟩

theorem relocLoop_length {ss : List SimpleSymbol}
    {tbl : List (String × Nat)} {ep : Nat} {www : List WriteSymbol} :
    ∀ {ex ex₂ : List Nat}, relocLoop ss tbl ep ex www = .ok ex₂ →
    ex₂.length = ex.length := by
  induction www with
  | nil =>
    intro ex ex₂ h
    cases h
    rfl
  | cons w rest ih =>
    intro ex ex₂ h
    obtain ⟨s, name, address, ic, ex₁, hs, hn, hlk, hload, hsp, hrec⟩ :=
      relocLoop_cons_ok h
    have h8 := load_addr_code_length hload
    have hlen := spliceList_length hsp (by omega)
    rw [ih hrec, hlen]

theorem relocLoop_outside {ss : List SimpleSymbol}
    {tbl : List (String × Nat)} {ep i : Nat} {www : List WriteSymbol} :
    ∀ {ex ex₂ : List Nat},
    (∀ w ∈ www, i < w.cs_offset ∨ w.cs_offset + 8 ≤ i) →
    relocLoop ss tbl ep ex www = .ok ex₂ → ex₂[i]? = ex[i]? := by
  induction www with
  | nil =>
    intro ex ex₂ _ h
    cases h
    rfl
  | cons w rest ih =>
    intro ex ex₂ hd h
    obtain ⟨s, name, address, ic, ex₁, hs, hn, hlk, hload, hsp, hrec⟩ :=
      relocLoop_cons_ok h
    have h8 := load_addr_code_length hload
    have hw := hd w (List.mem_cons_self w rest)
    rw [ih (fun w₂ hw₂ => hd w₂ (List.mem_cons_of_mem _ hw₂)) hrec]
    exact spliceList_get_outside hsp (by omega) (by omega)

theorem relocLoop_bounded {ss : List SimpleSymbol}
    {tbl : List (String × Nat)} {ep : Nat} {www : List WriteSymbol} :
    ∀ {ex ex₂ : List Nat}, relocLoop ss tbl ep ex www = .ok ex₂ →
    ∀ w ∈ www, ∀ s, ss[w.symbol_index]? = some s →
    ∀ n, s.name = some n → ∀ v, lookupName n tbl = some v →
    wrappingSub ((v + ep) / INSTRUCTION_BYTES) 1 ≤ 65535 := by
  induction www with
  | nil =>
    intro ex ex₂ h w hw
    cases hw
  | cons w₀ rest ih =>
    intro ex ex₂ h w hw s hs n hn v hv
    obtain ⟨s₀, n₀, a₀, ic, ex₁, hs₀, hn₀, hlk₀, hload, hsp, hrec⟩ :=
      relocLoop_cons_ok h
    rcases List.mem_cons.mp hw with rfl | hw₂
    · rw [hs] at hs₀
      cases hs₀
      rw [hn] at hn₀
      cases hn₀
      rw [hv] at hlk₀
      cases hlk₀
      exact (load_addr_code_ok hload).1
    · exact ih hrec w hw₂ s hs n hn v hv

theorem relocLoop_not_ok_of_missing {ss : List SimpleSymbol}
    {tbl : List (String × Nat)} {ep : Nat} {www : List WriteSymbol}
    {w : WriteSymbol} {s : SimpleSymbol} {n : String}
    (hw : w ∈ www) (hs : ss[w.symbol_index]? = some s)
    (hn : s.name = some n) (hv : lookupName n tbl = none) :
    ∀ {ex ex₂ : List Nat}, relocLoop ss tbl ep ex www ≠ .ok ex₂ := by
  induction www with
  | nil => cases hw
  | cons w₀ rest ih =>
    intro ex ex₂ h
    obtain ⟨s₀, n₀, a₀, ic, ex₁, hs₀, hn₀, hlk₀, hload, hsp, hrec⟩ :=
      relocLoop_cons_ok h
    rcases List.mem_cons.mp hw with rfl | hw₂
    · rw [hs] at hs₀
      cases hs₀
      rw [hn] at hn₀
      cases hn₀
      rw [hv] at hlk₀
      cases hlk₀
    · exact ih hw₂ hrec

theorem relocStep_missing {ss : List SimpleSymbol}
    {tbl : List (String × Nat)} {ep : Nat} {ex : List Nat}
    {w : WriteSymbol} {s : SimpleSymbol} {n : String}
    (hs : ss[w.symbol_index]? = some s) (hn : s.name = some n)
    (hv : lookupName n tbl = none) :
    relocStep ss tbl ep ex w = .error (.missingSymbol n) := by
  simp only [relocStep, resolveName_of hs hn, resolveAddress_missing hv]

theorem relocLoop_head_missing {ss : List SimpleSymbol}
    {tbl : List (String × Nat)} {ep : Nat} {ex : List Nat}
    {w : WriteSymbol} {rest : List WriteSymbol} {s : SimpleSymbol}
    {n : String} (hs : ss[w.symbol_index]? = some s)
    (hn : s.name = some n) (hv : lookupName n tbl = none) :
    relocLoop ss tbl ep ex (w :: rest) = .error (.missingSymbol n) := by
  simp only [relocLoop, relocStep_missing hs hn hv]

theorem relocLoop_head_oob {ss : List SimpleSymbol}
    {tbl : List (String × Nat)} {ep : Nat} {ex : List Nat}
    {w : WriteSymbol} {rest : List WriteSymbol}
    (hs : ss[w.symbol_index]? = none) :
    relocLoop ss tbl ep ex (w :: rest)
      = .error (.panic ("index out of bounds")) := by
  have hstep : relocStep ss tbl ep ex w
      = .error (.panic ("index out of bounds")) := by
    simp only [relocStep, resolveName_oob hs]
  simp only [relocLoop, hstep]

theorem relocLoop_head_unnamed {ss : List SimpleSymbol}
    {tbl : List (String × Nat)} {ep : Nat} {ex : List Nat}
    {w : WriteSymbol} {rest : List WriteSymbol} {s : SimpleSymbol}
    (hs : ss[w.symbol_index]? = some s) (hn : s.name = none) :
    relocLoop ss tbl ep ex (w :: rest)
      = .error (.panic ("unwrap None")) := by
  have hstep : relocStep ss tbl ep ex w
      = .error (.panic ("unwrap None")) := by
    simp only [relocStep, resolveName_unnamed hs hn]
  simp only [relocLoop, hstep]

/-! ### Patch-phase lemmas -/

theorem patchPhase_ok {st : LinkState} {out : List Nat}
    (h : patchPhase st = .ok out) :
    ∃ A epc ex₂,
      lookupName ENTRY st.symbol_addresses = some A ∧
      gen_entrypoint (wrappingSub ((A + ENTRYPOINT_LEN) / INSTRUCTION_BYTES) 1)
        = .ok epc ∧
      epc.length = ENTRYPOINT_LEN ∧
      relocLoop st.simple_symbols st.symbol_addresses epc.length
        st.executable st.write_what_where = .ok ex₂ ∧
      out = epc ++ ex₂ := by
  simp only [patchPhase] at h
  split at h
  · cases h
  · rename_i A hA
    split at h
    · cases h
    · rename_i epc hg
      split at h
      · rename_i hlen
        split at h
        · cases h
        · rename_i ex₂ hloop
          cases h
          exact ⟨A, epc, ex₂, hA, hg, hlen, hloop, rfl⟩
      · cases h

theorem link_eq_patch {mods : List Module} {st : LinkState}
    (hm : mergePhase mods = .ok st) : link mods = patchPhase st := by
  simp only [link, hm]

theorem link_eq_error {mods : List Module} {e : LinkError}
    (hm : mergePhase mods = .error e) : link mods = .error e := by
  simp only [link, hm]

theorem mergeModules_append_of_ok {mods₁ mods₂ : List Module} :
    ∀ {st st₁ : LinkState}, mergeModules st mods₁ = .ok st₁ →
    mergeModules st (mods₁ ++ mods₂) = mergeModules st₁ mods₂ := by
  induction mods₁ with
  | nil =>
    intro st st₁ h
    cases h
    rfl
  | cons m rest ih =>
    intro st st₁ h
    simp only [mergeModules] at h
    cases hstep : processModule st m with
    | error e => rw [hstep] at h; cases h
    | ok st₂ =>
      rw [hstep] at h
      have h₂ : mergeModules st₂ rest = Except.ok st₁ := h
      have hun : mergeModules st ((m :: rest) ++ mods₂)
          = mergeModules st₂ (rest ++ mods₂) := by
        simp only [List.cons_append, mergeModules, hstep]
        rfl
      rw [hun]
      exact ih h₂

theorem mergeModules_singleton_ok {st st₂ : LinkState} {m : Module}
    (h : mergeModules st [m] = .ok st₂) : processModule st m = .ok st₂ := by
  simp only [mergeModules] at h
  cases hstep : processModule st m with
  | error e => rw [hstep] at h; cases h
  | ok st₃ =>
    rw [hstep] at h
    have h₂ : Except.ok st₃ = Except.ok st₂ := h
    cases h₂
    rfl

theorem patchPhase_of_loop_error {st : LinkState} {A : Nat}
    {e : LinkError}
    (hA : lookupName ENTRY st.symbol_addresses = some A)
    (hu : wrappingSub ((A + ENTRYPOINT_LEN) / INSTRUCTION_BYTES) 1 ≤ 65535)
    (hloop : relocLoop st.simple_symbols st.symbol_addresses
        ENTRYPOINT_LEN st.executable st.write_what_where = .error e) :
    patchPhase st = .error e := by
  have hload := load_addr_code_of_le hu
  have hg : gen_entrypoint
      (wrappingSub ((A + ENTRYPOINT_LEN) / INSTRUCTION_BYTES) 1)
      = .ok ([(CLEAR_R_AC >>> 8) &&& 255, CLEAR_R_AC &&& 255,
          ADDI_R_AC,
          (wrappingSub ((A + ENTRYPOINT_LEN) / INSTRUCTION_BYTES) 1 >>> 8)
            &&& 255,
          (SHIFT_R_AC >>> 8) &&& 255, SHIFT_R_AC &&& 255,
          ADDI_R_AC,
          wrappingSub ((A + ENTRYPOINT_LEN) / INSTRUCTION_BYTES) 1 &&& 255]
          ++ [(JMP_R_AC >>> 8) &&& 255, JMP_R_AC &&& 255]) := by
    rw [gen_entrypoint, hload]
  obtain ⟨ac, -, -, hL⟩ := gen_entrypoint_ok hg
  simp only [patchPhase, hA, hg]
  rw [if_pos hL, hL, hloop]

/-! ### Claim theorems -/

/-- Claim C1 as stated is false at address 0: the load-address fragment
generated for a relocation patch has 8 bytes (four 2-byte
instructions), never 6. -/
theorem C1_counterexample :
    ¬ ∀ (u : Nat) (frag : List Nat),
        load_addr_code u = .ok frag → frag.length = 6 := by
  intro h
  have h8 := h 0 [(CLEAR_R_AC >>> 8) &&& 255, CLEAR_R_AC &&& 255,
    ADDI_R_AC, (0 >>> 8) &&& 255,
    (SHIFT_R_AC >>> 8) &&& 255, SHIFT_R_AC &&& 255,
    ADDI_R_AC, 0 &&& 255] (by rfl)
  simp at h8

/-- Claim C1 (amended): for every relocation patch the linker encodes
the computed 16-bit address unit as an 8-byte load-address fragment
(clear accumulator; add-immediate high byte; shift left 8;
add-immediate low byte, 2 bytes each) and overwrites exactly those
8 bytes of the merged image at the absolute patch offset, leaving every
other byte of the image unchanged by that patch. -/
theorem C1_patch_semantics {v frag v₂ : List Nat} {off u : Nat}
    (hf : load_addr_code u = .ok frag)
    (hs : spliceList v off (off + frag.length) frag = .ok v₂) :
    frag.length = 8 ∧
    frag = [(CLEAR_R_AC >>> 8) &&& 255, CLEAR_R_AC &&& 255,
            ADDI_R_AC, (u >>> 8) &&& 255,
            (SHIFT_R_AC >>> 8) &&& 255, SHIFT_R_AC &&& 255,
            ADDI_R_AC, u &&& 255] ∧
    v₂.length = v.length ∧
    (∀ j, j < 8 → v₂[off + j]? = frag[j]?) ∧
    (∀ i, i < off ∨ off + 8 ≤ i → v₂[i]? = v[i]?) := by
  obtain ⟨hu, hfrag⟩ := load_addr_code_ok hf
  have h8 : frag.length = 8 := by rw [hfrag]; rfl
  refine ⟨h8, hfrag, spliceList_length hs (by omega), ?_, ?_⟩
  · intro j hj
    exact spliceList_get_inside hs (by omega)
  · intro i hi
    exact spliceList_get_outside hs (by omega) (by omega)

/-- Witness for C1 (amended): splicing the fragment for unit 0x1234 at
offset 2 of a 12-byte image puts the fragment's high-immediate byte 18
at index 5. -/
theorem C1_patch_semantics_witness :
    ([0, 0, 109, 176, 28, 18, 61, 0, 28, 52, 0, 0] : List Nat)[5]?
      = some 18 :=
  (@C1_patch_semantics [0, 0, 0, 0, 0, 0, 0, 0, 0, 0, 0, 0]
    [109, 176, 28, 18, 61, 0, 28, 52]
    [0, 0, 109, 176, 28, 18, 61, 0, 28, 52, 0, 0] 2 4660
    (by rfl) (by rfl)).2.2.2.1 3 (by omega)

/-- Claim C2: for every successful link the output's length is the
10-byte trampoline plus the sum of the modules' code-section lengths:
the halt patch and every relocation patch replace ranges by
equally-sized fragments and never change the merged image's length. -/
theorem C2_output_length {mods : List Module} {out : List Nat}
    (h : link mods = .ok out) :
    out.length = ENTRYPOINT_LEN + (mods.map fun m => m.code.length).sum := by
  cases hm : mergePhase mods with
  | error e => rw [link_eq_error hm] at h; cases h
  | ok st =>
    rw [link_eq_patch hm] at h
    obtain ⟨A, epc, ex₂, hA, hg, hlen, hloop, rfl⟩ := patchPhase_ok h
    have hm₂ : mergeModules initState mods = .ok st := hm
    have h1 := mergeModules_length hm₂
    have h2 := relocLoop_length hloop
    simp only [initState] at h1
    simp only [List.length_append, hlen, h2, h1]
    simp

/-- Witness for C2: linking one module whose code section has 2 bytes
yields a 12-byte output. -/
theorem C2_output_length_witness :
    ([109, 176, 28, 0, 61, 0, 28, 4, 188, 0, 255, 255] : List Nat).length
      = ENTRYPOINT_LEN +
        (([⟨[⟨some ("main"), true, 0, 2⟩], [0, 0], []⟩] :
            List Module).map fun m => m.code.length).sum :=
  C2_output_length (by rfl)

/-- Claim C3 demands a fatal range-violation error for an entry symbol
smaller than the instruction width, but the code has no such check: the
halt offset `exec_offset + address + size - 2` is computed unguarded.
For the entry symbol at address 1 with size 1 the link silently
succeeds, overwriting bytes 0 and 1 (before the symbol's last
instruction) and writing output; for address 0 with size 0 the
subtraction wraps and the halt splice panics instead of printing a
range diagnostic. -/
theorem C3_no_size_check :
    link [⟨[⟨some ("main"), true, 1, 1⟩], [0, 0], []⟩]
      = .ok [109, 176, 28, 0, 61, 0, 28, 4, 188, 0, 255, 255] ∧
    link [⟨[⟨some ("main"), true, 0, 0⟩], [0, 0], []⟩]
      = .error (.panic ("splice out of range")) :=
  ⟨rfl, rfl⟩

/-- Claim C6: in a two-module link, every named sectioned symbol of the
second module resolves to its module-relative address plus the first
module's code length; first-module symbols resolve to their own
relative address, and the merged image is exactly the two code sections
appended gaplessly in input order. -/
theorem C6_layout {M₁ M₂ : Module} {st : LinkState}
    (hm : mergePhase [M₁, M₂] = .ok st) :
    (∀ sym : ObjSymbol, sym ∈ M₂.symbols → sym.hasSection = true →
      ∀ n, sym.name = some n →
        lookupName n st.symbol_addresses
          = some (M₁.code.length + sym.address)) ∧
    (∀ sym : ObjSymbol, sym ∈ M₁.symbols → sym.hasSection = true →
      ∀ n, sym.name = some n →
        lookupName n st.symbol_addresses = some sym.address) ∧
    st.executable.length = M₁.code.length + M₂.code.length := by
  have hm₂ : mergeModules initState ([M₁] ++ [M₂]) = .ok st := hm
  obtain ⟨st₁, hA, hB⟩ := mergeModules_ok_append hm₂
  have h1 := mergeModules_singleton_ok hA
  have h2 := mergeModules_singleton_ok hB
  have hl1 := processModule_length h1
  have hl2 := processModule_length h2
  have hoff : st₁.executable.length = M₁.code.length := by
    simpa [initState] using hl1
  refine ⟨?_, ?_, by omega⟩
  · intro sym hmem hsec n hn
    obtain ⟨sc, ex, ws, hscan, hsp, hrels, hst2⟩ := processModule_ok h2
    have hlk := scanSymbols_mem_lookup hscan hmem hn hsec
    rw [hoff] at hlk
    rw [hst2]
    exact hlk
  · intro sym hmem hsec n hn
    obtain ⟨sc₁, ex₁, ws₁, hscan₁, hsp₁, hrels₁, hst1⟩ :=
      processModule_ok h1
    have hlk₁ := scanSymbols_mem_lookup hscan₁ hmem hn hsec
    have hlk₂ : lookupName n st₁.symbol_addresses
        = some sym.address := by
      rw [hst1]
      simpa [initState] using hlk₁
    exact processModule_tbl_mono h2 hlk₂

/-- Witness for C6: module f at relative address 1 in the second module
resolves to 2 + 1 = 3 after a first module with a 2-byte code
section. -/
theorem C6_layout_witness :
    lookupName ("f") [("f", 3), ("main", 0)] = some 3 :=
  (@C6_layout ⟨[⟨some ("main"), true, 0, 2⟩], [1, 2], []⟩
    ⟨[⟨some ("f"), true, 1, 0⟩], [7, 7, 7], []⟩
    ⟨[], [⟨some ("main"), 0, 0, 2⟩, ⟨some ("f"), 1, 1, 0⟩],
      [("f", 3), ("main", 0)], [255, 255, 7, 7, 7]⟩
    (by rfl)).1 ⟨some ("f"), true, 1, 0⟩ (by decide) rfl ("f") rfl

/-- Claim C7: whenever the computed address unit — for the entry
trampoline or for any relocation target that resolves to a defined
name — exceeds the 16-bit range 65535, the link fails fatally and no
output file is written (success requires every such unit to fit in 16
bits, because `load_addr_code` panics on larger values). -/
theorem C7_range_abort {mods : List Module} {st : LinkState}
    (hm : mergePhase mods = .ok st)
    (h : (∃ A, lookupName ENTRY st.symbol_addresses = some A ∧
            65535 <
              wrappingSub ((A + ENTRYPOINT_LEN) / INSTRUCTION_BYTES) 1) ∨
         (∃ w, w ∈ st.write_what_where ∧ ∃ sym n v,
            st.simple_symbols[w.symbol_index]? = some sym ∧
            sym.name = some n ∧
            lookupName n st.symbol_addresses = some v ∧
            65535 <
              wrappingSub ((v + ENTRYPOINT_LEN) / INSTRUCTION_BYTES) 1)) :
    exceptIsOk (link mods) = false := by
  rw [link_eq_patch hm]
  cases hp : patchPhase st with
  | error e => rfl
  | ok out =>
    exfalso
    obtain ⟨A₀, epc, ex₂, hA₀, hg, hlen, hloop, -⟩ := patchPhase_ok hp
    rcases h with ⟨A, hA, hbig⟩ | ⟨w, hw, sym, n, v, hsym, hn, hv, hbig⟩
    · rw [hA₀] at hA
      cases hA
      obtain ⟨ac, hac, -, -⟩ := gen_entrypoint_ok hg
      have hle := (load_addr_code_ok hac).1
      omega
    · have hle := relocLoop_bounded hloop w hw sym hsym n hn v hv
      rw [hlen] at hle
      omega

/-- Witness for C7: a relocation against symbol big at absolute address
200000 has unit 100004 > 65535, and the link aborts. -/
theorem C7_range_abort_witness :
    exceptIsOk (link [⟨[⟨some ("main"), true, 0, 2⟩,
        ⟨some ("big"), true, 200000, 0⟩], [0, 0],
        [0, 0, 0, 0, 0, 1, 0, 0]⟩]) = false :=
  @C7_range_abort
    [⟨[⟨some ("main"), true, 0, 2⟩, ⟨some ("big"), true, 200000, 0⟩],
      [0, 0], [0, 0, 0, 0, 0, 1, 0, 0]⟩]
    ⟨[⟨1, 0⟩],
      [⟨some ("main"), 0, 0, 2⟩, ⟨some ("big"), 1, 200000, 0⟩],
      [("big", 200000), ("main", 0)], [255, 255]⟩
    (by rfl)
    (Or.inr ⟨⟨1, 0⟩, by decide, ⟨some ("big"), 1, 200000, 0⟩, "big",
      200000, by rfl, rfl, by rfl, by decide⟩)

/-- Claim C8: if a named sectioned symbol is defined twice — once by an
earlier module and again by a symbol of module M, or by two symbols of
M itself — the link aborts during symbol-table building with a
duplicate-definition diagnostic raised at the second insertion, before
any output is written. -/
theorem C8_duplicate {pre post : List Module} {M : Module}
    {st : LinkState} {n : String}
    (hpre : mergePhase pre = .ok st)
    (hdup :
      (∃ v, lookupName n st.symbol_addresses = some v ∧
        ∃ sym ∈ M.symbols, sym.name = some n ∧ sym.hasSection = true) ∨
      (∃ l₁ sym₁ l₂ sym₂ l₃,
        M.symbols = l₁ ++ sym₁ :: l₂ ++ sym₂ :: l₃ ∧
        sym₁.name = some n ∧ sym₁.hasSection = true ∧
        sym₂.name = some n ∧ sym₂.hasSection = true)) :
    isDuplicateError (link (pre ++ M :: post)) = true := by
  have herr : ∃ e, scanSymbols st.executable.length
      ⟨st.simple_symbols, st.symbol_addresses, none⟩ M.symbols
      = .error e := by
    rcases hdup with ⟨v, hdef, sym, hmem, hn, hsec⟩ |
      ⟨l₁, sym₁, l₂, sym₂, l₃, hsplit, hn₁, hs₁, hn₂, hs₂⟩
    · exact @scanSymbols_dup_of_mem st.executable.length
        M.symbols ⟨st.simple_symbols, st.symbol_addresses, none⟩ sym n v
        hdef hmem hn hsec
    · rw [hsplit]
      exact scanSymbols_dup_pair hn₁ hs₁ hn₂ hs₂
  obtain ⟨e, he⟩ := herr
  obtain ⟨m, hm_eq⟩ := scanSymbols_error_dup he
  have hpm : processModule st M = .error e := by
    simp only [processModule, he]
  have hpre₂ : mergeModules initState pre = .ok st := hpre
  have hmm : mergeModules initState (pre ++ M :: post) = .error e := by
    rw [mergeModules_append_of_ok hpre₂]
    simp only [mergeModules, hpm]
  have hlink : link (pre ++ M :: post) = .error e := by
    have hmp : mergePhase (pre ++ M :: post) = .error e := hmm
    simp only [link, hmp]
  rw [hlink, hm_eq]
  rfl

/-- Witness for C8: one module defining sectioned symbol foo twice
aborts with the duplicate diagnostic. -/
theorem C8_duplicate_witness :
    isDuplicateError (link [⟨[⟨some ("foo"), true, 0, 0⟩,
      ⟨some ("foo"), true, 1, 0⟩], [], []⟩]) = true :=
  @C8_duplicate [] []
    ⟨[⟨some ("foo"), true, 0, 0⟩, ⟨some ("foo"), true, 1, 0⟩], [], []⟩
    initState "foo" (by rfl)
    (Or.inr ⟨[], ⟨some ("foo"), true, 0, 0⟩, [],
      ⟨some ("foo"), true, 1, 0⟩, [], rfl, rfl, rfl, rfl, rfl⟩)

/-- Claim C9: a relocation whose ordinal resolves to a name absent from
the address table aborts the link with no output — and when it is the
first collected relocation (with the entry resolvable and its unit in
range) the error is exactly the missing-symbol diagnostic; a link whose
table lacks the entry symbol aborts with exactly the missing-entry
diagnostic. -/
theorem C9_undefined_and_missing_entry {mods : List Module}
    {st : LinkState} (hm : mergePhase mods = .ok st) :
    (lookupName ENTRY st.symbol_addresses = none →
      link mods = .error .missingEntry) ∧
    (∀ w ∈ st.write_what_where, ∀ sym n,
      st.simple_symbols[w.symbol_index]? = some sym →
      sym.name = some n →
      lookupName n st.symbol_addresses = none →
      exceptIsOk (link mods) = false) ∧
    (∀ w rest sym n A,
      st.write_what_where = w :: rest →
      st.simple_symbols[w.symbol_index]? = some sym →
      sym.name = some n →
      lookupName n st.symbol_addresses = none →
      lookupName ENTRY st.symbol_addresses = some A →
      wrappingSub ((A + ENTRYPOINT_LEN) / INSTRUCTION_BYTES) 1 ≤ 65535 →
      link mods = .error (.missingSymbol n)) := by
  refine ⟨?_, ?_, ?_⟩
  · intro hnone
    rw [link_eq_patch hm]
    simp only [patchPhase, hnone]
  · intro w hw sym n hsym hn hnone
    rw [link_eq_patch hm]
    cases hp : patchPhase st with
    | error e => rfl
    | ok out =>
      exfalso
      obtain ⟨A₀, epc, ex₂, hA₀, hg, hlen, hloop, -⟩ := patchPhase_ok hp
      exact relocLoop_not_ok_of_missing hw hsym hn hnone hloop
  · intro w rest sym n A hwww hsym hn hnone hA hu
    have hloop : relocLoop st.simple_symbols st.symbol_addresses
        ENTRYPOINT_LEN st.executable st.write_what_where
        = .error (.missingSymbol n) := by
      rw [hwww]
      exact relocLoop_head_missing hsym hn hnone
    rw [link_eq_patch hm]
    exact patchPhase_of_loop_error hA hu hloop

/-- Witness for C9: a relocation that names the sectionless symbol ref
aborts the link with the missing-symbol diagnostic. -/
theorem C9_undefined_and_missing_entry_witness :
    link [⟨[⟨some ("main"), true, 0, 2⟩, ⟨some ("ref"), false, 0, 0⟩],
      [0, 0], [0, 0, 0, 0, 0, 1, 0, 0]⟩]
      = .error (.missingSymbol ("ref")) :=
  (@C9_undefined_and_missing_entry
    [⟨[⟨some ("main"), true, 0, 2⟩, ⟨some ("ref"), false, 0, 0⟩],
      [0, 0], [0, 0, 0, 0, 0, 1, 0, 0]⟩]
    ⟨[⟨1, 0⟩],
      [⟨some ("main"), 0, 0, 2⟩, ⟨some ("ref"), 1, 0, 0⟩],
      [("main", 0)], [255, 255]⟩
    (by rfl)).2.2 ⟨1, 0⟩ [] ⟨some ("ref"), 1, 0, 0⟩ "ref" 0
    rfl (by rfl) rfl (by rfl) (by rfl) (by decide)

/-- Claim C10: when the first collected relocation record's ordinal is
out of bounds for the accumulated global symbol list, or resolves to a
nameless symbol, the relocation resolver panics (Vec index / unwrap)
instead of printing a one-line diagnostic; the diagnostic-then-exit
path exists only for ordinals resolving to a named symbol. -/
theorem C10_resolver_panics {mods : List Module} {st : LinkState}
    {w : WriteSymbol} {rest : List WriteSymbol} {A : Nat}
    (hm : mergePhase mods = .ok st)
    (hA : lookupName ENTRY st.symbol_addresses = some A)
    (hu : wrappingSub ((A + ENTRYPOINT_LEN) / INSTRUCTION_BYTES) 1 ≤ 65535)
    (hw : st.write_what_where = w :: rest) :
    (st.simple_symbols[w.symbol_index]? = none →
      link mods = .error (.panic ("index out of bounds"))) ∧
    (∀ sym, st.simple_symbols[w.symbol_index]? = some sym →
      sym.name = none →
      link mods = .error (.panic ("unwrap None"))) := by
  constructor
  · intro hoob
    have hloop : relocLoop st.simple_symbols st.symbol_addresses
        ENTRYPOINT_LEN st.executable st.write_what_where
        = .error (.panic ("index out of bounds")) := by
      rw [hw]
      exact relocLoop_head_oob hoob
    rw [link_eq_patch hm]
    exact patchPhase_of_loop_error hA hu hloop
  · intro sym hsym hname
    have hloop : relocLoop st.simple_symbols st.symbol_addresses
        ENTRYPOINT_LEN st.executable st.write_what_where
        = .error (.panic ("unwrap None")) := by
      rw [hw]
      exact relocLoop_head_unnamed hsym hname
    rw [link_eq_patch hm]
    exact patchPhase_of_loop_error hA hu hloop

/-- Witness for C10: a relocation record with ordinal 5 in a module
with a single symbol panics on the out-of-bounds index. -/
theorem C10_resolver_panics_witness :
    link [⟨[⟨some ("main"), true, 0, 2⟩], [0, 0],
      [0, 0, 0, 0, 0, 5, 0, 0]⟩]
      = .error (.panic ("index out of bounds")) :=
  (@C10_resolver_panics
    [⟨[⟨some ("main"), true, 0, 2⟩], [0, 0], [0, 0, 0, 0, 0, 5, 0, 0]⟩]
    ⟨[⟨5, 0⟩], [⟨some ("main"), 0, 0, 2⟩], [("main", 0)], [255, 255]⟩
    ⟨5, 0⟩ [] 0 (by rfl) (by rfl) (by decide) rfl).1 (by rfl)

/-- Claim C5: every generated trampoline is exactly 10 bytes — the
load-address fragment followed by the fixed 2-byte jump-via-accumulator
opcode — and in a single-module link with the entry symbol at
module-relative address `a` (size at least 2) the output starts with
the trampoline encoding unit `(a + 10) / 2 - 1` split into high and low
immediate bytes. -/
theorem C5_trampoline {M : Module} {out : List Nat} {a s : Nat}
    (hl : link [M] = .ok out)
    (hsym : (⟨some ENTRY, true, a, s⟩ : ObjSymbol) ∈ M.symbols)
    (_hs : 2 ≤ s) (ha : a < USIZE) :
    (∀ u bytes, gen_entrypoint u = .ok bytes →
      ∃ frag, load_addr_code u = .ok frag ∧
        bytes = frag ++ [(JMP_R_AC >>> 8) &&& 255, JMP_R_AC &&& 255] ∧
        bytes.length = ENTRYPOINT_LEN) ∧
    out.take ENTRYPOINT_LEN =
      [(CLEAR_R_AC >>> 8) &&& 255, CLEAR_R_AC &&& 255,
       ADDI_R_AC,
       (((a + ENTRYPOINT_LEN) / INSTRUCTION_BYTES - 1) >>> 8) &&& 255,
       (SHIFT_R_AC >>> 8) &&& 255, SHIFT_R_AC &&& 255,
       ADDI_R_AC,
       ((a + ENTRYPOINT_LEN) / INSTRUCTION_BYTES - 1) &&& 255,
       (JMP_R_AC >>> 8) &&& 255, JMP_R_AC &&& 255] := by
  refine ⟨fun u bytes hg => gen_entrypoint_ok hg, ?_⟩
  cases hm : mergePhase [M] with
  | error e => rw [link_eq_error hm] at hl; cases hl
  | ok st =>
    rw [link_eq_patch hm] at hl
    obtain ⟨A, epc, ex₂, hA, hg, hlenE, hloop, rfl⟩ := patchPhase_ok hl
    have hm₁ : mergeModules initState [M] = .ok st := hm
    have h1 := mergeModules_singleton_ok hm₁
    obtain ⟨sc, ex, ws, hscan, hsp, hrels, hst⟩ := processModule_ok h1
    have hlk := scanSymbols_mem_lookup hscan hsym rfl rfl
    have hlk₂ : lookupName ENTRY st.symbol_addresses = some a := by
      rw [hst]
      simpa [initState] using hlk
    rw [hA] at hlk₂
    cases hlk₂
    have hwu : wrappingSub ((a + ENTRYPOINT_LEN) / INSTRUCTION_BYTES) 1
        = (a + ENTRYPOINT_LEN) / INSTRUCTION_BYTES - 1 := by
      apply wrappingSub_eq_sub (by omega)
      · simp only [ENTRYPOINT_LEN, INSTRUCTION_BYTES]
        omega
      · simp only [ENTRYPOINT_LEN, INSTRUCTION_BYTES]
        simp only [USIZE] at ha ⊢
        omega
    rw [hwu] at hg
    obtain ⟨frag, hfrag, hbytes, hblen⟩ := gen_entrypoint_ok hg
    obtain ⟨-, hfragval⟩ := load_addr_code_ok hfrag
    have htake : (epc ++ ex₂).take ENTRYPOINT_LEN = epc :=
      List.take_left' hlenE
    rw [htake, hbytes, hfragval]
    rfl

/-- Witness for C5: the single-module link with entry at address 0 and
size 2 starts with the trampoline for unit (0 + 10) / 2 - 1 = 4. -/
theorem C5_trampoline_witness :
    ([109, 176, 28, 0, 61, 0, 28, 4, 188, 0, 255, 255] :
        List Nat).take ENTRYPOINT_LEN
      = [109, 176, 28, 0, 61, 0, 28, 4, 188, 0] :=
  (@C5_trampoline ⟨[⟨some ("main"), true, 0, 2⟩], [0, 0], []⟩
    [109, 176, 28, 0, 61, 0, 28, 4, 188, 0, 255, 255] 0 2
    (by rfl) (by decide) (by omega) (by decide)).2

/-- Claim C4: in every successful link in which module M defines the
entry symbol at relative address `a` with size `s ≥ 2` and no
relocation patch range overlaps the entry function's final instruction,
the two output bytes at trampoline length + entry absolute address +
size - 2 are the halt opcode 0xFF 0xFF, whatever the module's code
originally held there (the bound on the absolute position reflects
`usize` arithmetic). -/
theorem C4_halt_bytes {pre post : List Module} {M : Module}
    {st : LinkState} {out : List Nat} {a s : Nat}
    (hm : mergePhase (pre ++ M :: post) = .ok st)
    (hl : link (pre ++ M :: post) = .ok out)
    (hsym : (⟨some ENTRY, true, a, s⟩ : ObjSymbol) ∈ M.symbols)
    (hs : 2 ≤ s)
    (hb : (pre.map fun m => m.code.length).sum + a + s ≤ USIZE)
    (hdis : ∀ w ∈ st.write_what_where,
      w.cs_offset + 8 ≤ (pre.map fun m => m.code.length).sum + a + s - 2 ∨
      (pre.map fun m => m.code.length).sum + a + s ≤ w.cs_offset) :
    out[ENTRYPOINT_LEN +
        ((pre.map fun m => m.code.length).sum + a + s - 2)]? = some HLT ∧
    out[ENTRYPOINT_LEN +
        ((pre.map fun m => m.code.length).sum + a + s - 1)]? = some HLT := by
  have hm₂ : mergeModules initState (pre ++ M :: post) = .ok st := hm
  obtain ⟨st₁, hpre, hrest⟩ := mergeModules_ok_append hm₂
  simp only [mergeModules] at hrest
  cases hstep : processModule st₁ M with
  | error e => rw [hstep] at hrest; cases hrest
  | ok stM =>
    rw [hstep] at hrest
    have hrest₂ : mergeModules stM post = .ok st := hrest
    have hbase : st₁.executable.length
        = (pre.map fun m => m.code.length).sum := by
      simpa [initState] using mergeModules_length hpre
    obtain ⟨sc, ex, ws, hscan, hsp, hrels, hstM⟩ := processModule_ok hstep
    have hnone : lookupName ENTRY st₁.symbol_addresses = none := by
      cases hcase : lookupName ENTRY st₁.symbol_addresses with
      | none => rfl
      | some v =>
        obtain ⟨e, he⟩ := @scanSymbols_dup_of_mem st₁.executable.length
          M.symbols ⟨st₁.simple_symbols, st₁.symbol_addresses, none⟩
          ⟨some ENTRY, true, a, s⟩ ENTRY v hcase hsym rfl rfl
        rw [he] at hscan
        cases hscan
    have hmlio : sc.mlio
        = some (wrappingSub (st₁.executable.length + a + s) 2) :=
      scanSymbols_entry_mlio hnone rfl hscan hsym rfl rfl
    have hw : wrappingSub (st₁.executable.length + a + s) 2
        = st₁.executable.length + a + s - 2 := by
      apply wrappingSub_eq_sub (by omega) (by omega)
      omega
    rw [hw] at hmlio
    rw [hmlio] at hsp
    have hex0 : ex[st₁.executable.length + a + s - 2]? = some HLT := by
      have h0 := spliceList_get_inside hsp
        (show 0 < ([HLT, HLT] : List Nat).length by decide)
      simpa using h0
    have hex1 : ex[st₁.executable.length + a + s - 1]? = some HLT := by
      have h1 := spliceList_get_inside hsp
        (show 1 < ([HLT, HLT] : List Nat).length by decide)
      have harith : st₁.executable.length + a + s - 2 + 1
          = st₁.executable.length + a + s - 1 := by omega
      rw [harith] at h1
      simpa using h1
    obtain ⟨hab, hbb, -⟩ := spliceList_ok hsp
    have hexlen : ex.length = (st₁.executable ++ M.code).length :=
      spliceList_length hsp
        (by simp only [List.length_cons, List.length_nil]; omega)
    have htblM : lookupName ENTRY stM.symbol_addresses
        = some (st₁.executable.length + a) := by
      rw [hstM]
      exact scanSymbols_mem_lookup hscan hsym rfl rfl
    have hexM : stM.executable = ex := by rw [hstM]
    obtain ⟨htblS, hexS⟩ := mergeModules_preserve htblM hrest₂
    have hpos2 : st₁.executable.length + a + s - 2 + 2 ≤ ex.length := by
      rw [hexlen]
      exact hbb
    have hst0 : st.executable[st₁.executable.length + a + s - 2]?
        = some HLT := by
      rw [hexS _ (by rw [hexM]; omega), hexM]
      exact hex0
    have hst1 : st.executable[st₁.executable.length + a + s - 1]?
        = some HLT := by
      rw [hexS _ (by rw [hexM]; omega), hexM]
      exact hex1
    rw [link_eq_patch hm] at hl
    obtain ⟨A, epc, ex₂, hA, hg, hlenE, hloop, rfl⟩ := patchPhase_ok hl
    have hdis₁ : ∀ w ∈ st.write_what_where,
        st₁.executable.length + a + s - 2 < w.cs_offset ∨
        w.cs_offset + 8 ≤ st₁.executable.length + a + s - 2 := by
      intro w hw₂
      have hd := hdis w hw₂
      rw [hbase]
      omega
    have hdis₂ : ∀ w ∈ st.write_what_where,
        st₁.executable.length + a + s - 1 < w.cs_offset ∨
        w.cs_offset + 8 ≤ st₁.executable.length + a + s - 1 := by
      intro w hw₂
      have hd := hdis w hw₂
      rw [hbase]
      omega
    have hout0 : ex₂[st₁.executable.length + a + s - 2]? = some HLT := by
      rw [relocLoop_outside hdis₁ hloop]
      exact hst0
    have hout1 : ex₂[st₁.executable.length + a + s - 1]? = some HLT := by
      rw [relocLoop_outside hdis₂ hloop]
      exact hst1
    rw [hbase] at hout0 hout1
    constructor
    · rw [List.getElem?_append_right (by omega)]
      have hidx : ENTRYPOINT_LEN +
          ((pre.map fun m => m.code.length).sum + a + s - 2) - epc.length
          = (pre.map fun m => m.code.length).sum + a + s - 2 := by omega
      rw [hidx]
      exact hout0
    · rw [List.getElem?_append_right (by omega)]
      have hidx : ENTRYPOINT_LEN +
          ((pre.map fun m => m.code.length).sum + a + s - 1) - epc.length
          = (pre.map fun m => m.code.length).sum + a + s - 1 := by omega
      rw [hidx]
      exact hout1

/-- Witness for C4: a single module with entry at address 0 and size 2
gets 0xFF 0xFF at output offsets 10 and 11. -/
theorem C4_halt_bytes_witness :
    ([109, 176, 28, 0, 61, 0, 28, 4, 188, 0, 255, 255] :
        List Nat)[10]? = some HLT ∧
    ([109, 176, 28, 0, 61, 0, 28, 4, 188, 0, 255, 255] :
        List Nat)[11]? = some HLT :=
  @C4_halt_bytes [] [] ⟨[⟨some ("main"), true, 0, 2⟩], [0, 0], []⟩
    ⟨[], [⟨some ("main"), 0, 0, 2⟩], [("main", 0)], [255, 255]⟩
    [109, 176, 28, 0, 61, 0, 28, 4, 188, 0, 255, 255] 0 2
    (by rfl) (by rfl) (by decide) (by omega) (by decide)
    (by intro w hw₂; cases hw₂)

end Henlo
